import Mathlib

/-!
Verification of the hexagonal-grid coordinate module of `bevy_ecs_tilemap`
(`src/helpers/hex_grid/axial.rs` and `src/helpers/hex_grid/offset.rs`).

Rust `i32` values are embedded as unbounded `Int`; Rust's `/` on `i32`
truncates toward zero, which is Lean's `Int.tdiv`.  The `f32` arithmetic of
the world-space mapping is embedded as exact rational arithmetic; the claims
settled against it only involve values at which the `f32` computation is
exact.
-/

/-- Rust's integer division on `i32` truncates toward zero (`Int.tdiv`). -/
def i32Div (a b : Int) : Int := Int.tdiv a b

/-- A position in a hex grid labelled axially, `axial.rs` lines 26-30.
Fields `q` and `r` are `i32` in the source. -/
structure AxialPos where
  q : Int
  r : Int
deriving DecidableEq

/-- Offset position, row-odd labelling, `offset.rs` lines 6-10. -/
structure RowOddPos where
  q : Int
  r : Int
deriving DecidableEq

/-- Offset position, row-even labelling, `offset.rs` lines 43-47. -/
structure RowEvenPos where
  q : Int
  r : Int
deriving DecidableEq

/-- Offset position, column-odd labelling, `offset.rs` lines 80-84. -/
structure ColOddPos where
  q : Int
  r : Int
deriving DecidableEq

/-- Offset position, column-even labelling, `offset.rs` lines 117-121. -/
structure ColEvenPos where
  q : Int
  r : Int
deriving DecidableEq

/-- The helper `ceiled_division_by_2` of `axial.rs` lines 81-87:
`(x - 1) / 2` for negative `x`, `(x + 1) / 2` otherwise, with Rust's
truncating division. -/
def ceiled_division_by_2 (x : Int) : Int :=
  if x < 0 then i32Div (x - 1) 2 else i32Div (x + 1) 2

/-- The impl `From<AxialPos> for RowOddPos`, `axial.rs` lines 89-95. -/
def RowOddPos.fromAxial (axial_pos : AxialPos) : RowOddPos :=
  let delta := i32Div axial_pos.r 2
  { q := axial_pos.q + delta, r := axial_pos.r }

/-- The impl `From<RowOddPos> for AxialPos`, `axial.rs` lines 97-103. -/
def AxialPos.fromRowOdd (offset_pos : RowOddPos) : AxialPos :=
  let delta := i32Div offset_pos.r 2
  { q := offset_pos.q - delta, r := offset_pos.r }

/-- The impl `From<AxialPos> for RowEvenPos`, `axial.rs` lines 105-112. -/
def RowEvenPos.fromAxial (axial_pos : AxialPos) : RowEvenPos :=
  let delta := ceiled_division_by_2 axial_pos.r
  { q := axial_pos.q + delta, r := axial_pos.r }

/-- The impl `From<RowEvenPos> for AxialPos`, `axial.rs` lines 114-120. -/
def AxialPos.fromRowEven (offset_pos : RowEvenPos) : AxialPos :=
  let delta := ceiled_division_by_2 offset_pos.r
  { q := offset_pos.q - delta, r := offset_pos.r }

/-- The impl `From<AxialPos> for ColOddPos`, `axial.rs` lines 122-128. -/
def ColOddPos.fromAxial (axial_pos : AxialPos) : ColOddPos :=
  let delta := i32Div axial_pos.q 2
  { q := axial_pos.q, r := axial_pos.r + delta }

/-- The impl `From<ColOddPos> for AxialPos`, `axial.rs` lines 130-136. -/
def AxialPos.fromColOdd (offset_pos : ColOddPos) : AxialPos :=
  let delta := i32Div offset_pos.q 2
  { q := offset_pos.q, r := offset_pos.r - delta }

/-- The impl `From<AxialPos> for ColEvenPos`, `axial.rs` lines 138-144. -/
def ColEvenPos.fromAxial (axial_pos : AxialPos) : ColEvenPos :=
  let delta := ceiled_division_by_2 axial_pos.q
  { q := axial_pos.q, r := axial_pos.r + delta }

/-- The impl `From<ColEvenPos> for AxialPos`, `axial.rs` lines 146-152. -/
def AxialPos.fromColEven (offset_pos : ColEvenPos) : AxialPos :=
  let delta := ceiled_division_by_2 offset_pos.q
  { q := offset_pos.q, r := offset_pos.r - delta }

/-- Mathematical floor of `x / 2`; Lean's `/` on `Int` is Euclidean division,
which for a positive divisor is the floor.  Used only in specification-side
statements, never in the embedding of the source. -/
def floorHalf (x : Int) : Int := x / 2

/-- Mathematical ceiling of `x / 2`, as `-⌊-x / 2⌋`.  Used only in
specification-side statements, never in the embedding of the source. -/
def ceilHalf (x : Int) : Int := -((-x) / 2)

/-- Rust's truncating division by two, characterised sign-symmetrically:
`⌊x / 2⌋` for non-negative `x` and `-⌊-x / 2⌋` for negative `x`.  Used only
in specification-side statements. -/
def truncHalf (x : Int) : Int := if 0 ≤ x then x / 2 else -((-x) / 2)

/-- Modelled from the spec: `cube.rs` (the `CubePos` type) is not under
`src/`.  Per spec section 4.1, a Cube coordinate has integer fields
`q`, `r`, `s` with invariant `q + r + s = 0`. -/
structure CubePos where
  q : Int
  r : Int
  s : Int
deriving DecidableEq

/-- Modelled from the spec: `cube_from_axial(a)` computes `s = -a.q - a.r`
(spec section 4.1); the impl `From<AxialPos> for CubePos` lives in the
missing `cube.rs`. -/
def CubePos.fromAxial (a : AxialPos) : CubePos :=
  { q := a.q, r := a.r, s := -a.q - a.r }

/-- Modelled from the spec: magnitude of a Cube coordinate is
`(|q| + |r| + |s|) / 2` (spec section 4.1); `CubePos::magnitude` lives in
the missing `cube.rs`.  The division is Rust's `i32` division; the numerator
is non-negative so the flavour of division is immaterial. -/
def CubePos.magnitude (c : CubePos) : Int :=
  i32Div (|c.q| + |c.r| + |c.s|) 2

/-- The impl `Sub<AxialPos> for AxialPos`, `axial.rs` lines 59-68. -/
def AxialPos.sub (a rhs : AxialPos) : AxialPos :=
  { q := a.q - rhs.q, r := a.r - rhs.r }

/-- The method `AxialPos::magnitude`, `axial.rs` lines 192-195. -/
def AxialPos.magnitude (a : AxialPos) : Int :=
  (CubePos.fromAxial a).magnitude

/-- The method `AxialPos::distance_from`, `axial.rs` lines 198-200. -/
def AxialPos.distance_from (a other : AxialPos) : Int :=
  (a.sub other).magnitude

/-- Modelled from the spec: `TilePos` (the bounded storage-index coordinate,
`tiles.rs`) is not under `src/`.  It is a pair of `u32` fields, embedded as
naturals (theorems carry the bound `< 2^32` where it matters). -/
structure TilePos where
  x : Nat
  y : Nat
deriving DecidableEq

/-- Modelled from the spec: `TilemapSize` (the grid-bounds descriptor) is
not under `src/`; it is a width/height pair of `u32` fields. -/
structure TilemapSize where
  x : Nat
  y : Nat
deriving DecidableEq

/-- Modelled from the spec: `TilePos::from_i32_pair` lives in the missing
`tiles.rs`.  Per spec section 4.6 and the doc comments on the `as_tile_pos`
callers, it returns a present value exactly when both components are
non-negative and strictly within the bounds, else absent. -/
def TilePos.from_i32_pair (q r : Int) (map_size : TilemapSize) : Option TilePos :=
  if 0 ≤ q ∧ 0 ≤ r ∧ q < (map_size.x : Int) ∧ r < (map_size.y : Int) then
    some { x := q.toNat, y := r.toNat }
  else
    none

/-- The method `AxialPos::as_tile_pos`, `axial.rs` lines 252-254. -/
def AxialPos.as_tile_pos (a : AxialPos) (map_size : TilemapSize) : Option TilePos :=
  TilePos.from_i32_pair a.q a.r map_size

/-- The method `RowOddPos::as_tile_pos`, `offset.rs` lines 29-31. -/
def RowOddPos.as_tile_pos (p : RowOddPos) (map_size : TilemapSize) : Option TilePos :=
  TilePos.from_i32_pair p.q p.r map_size

/-- The method `RowEvenPos::as_tile_pos`, `offset.rs` lines 66-68. -/
def RowEvenPos.as_tile_pos (p : RowEvenPos) (map_size : TilemapSize) : Option TilePos :=
  TilePos.from_i32_pair p.q p.r map_size

/-- The method `ColOddPos::as_tile_pos`, `offset.rs` lines 103-105. -/
def ColOddPos.as_tile_pos (p : ColOddPos) (map_size : TilemapSize) : Option TilePos :=
  TilePos.from_i32_pair p.q p.r map_size

/-- The method `ColEvenPos::as_tile_pos`, `offset.rs` lines 140-142. -/
def ColEvenPos.as_tile_pos (p : ColEvenPos) (map_size : TilemapSize) : Option TilePos :=
  TilePos.from_i32_pair p.q p.r map_size

/-- Rust's `as i32` cast of a `u32` value reinterprets the 32 bits: values
below `2^31` are unchanged, larger ones are reduced by `2^32`. -/
def u32_as_i32 (n : Nat) : Int :=
  if n < 2 ^ 31 then (n : Int) else (n : Int) - 2 ^ 32

/-- The impl `From<&TilePos> for AxialPos`, `axial.rs` lines 32-39:
`q = tile_pos.x as i32`, `r = tile_pos.y as i32`. -/
def AxialPos.fromTilePos (tile_pos : TilePos) : AxialPos :=
  { q := u32_as_i32 tile_pos.x, r := u32_as_i32 tile_pos.y }

/-- The impl `From<&TilePos> for RowOddPos`, `offset.rs` lines 34-41. -/
def RowOddPos.fromTilePos (tile_pos : TilePos) : RowOddPos :=
  { q := u32_as_i32 tile_pos.x, r := u32_as_i32 tile_pos.y }

/-- The impl `From<&TilePos> for RowEvenPos`, `offset.rs` lines 71-78. -/
def RowEvenPos.fromTilePos (tile_pos : TilePos) : RowEvenPos :=
  { q := u32_as_i32 tile_pos.x, r := u32_as_i32 tile_pos.y }

/-- The impl `From<&TilePos> for ColOddPos`, `offset.rs` lines 108-115. -/
def ColOddPos.fromTilePos (tile_pos : TilePos) : ColOddPos :=
  { q := u32_as_i32 tile_pos.x, r := u32_as_i32 tile_pos.y }

/-- The impl `From<&TilePos> for ColEvenPos`, `offset.rs` lines 145-152. -/
def ColEvenPos.fromTilePos (tile_pos : TilePos) : ColEvenPos :=
  { q := u32_as_i32 tile_pos.x, r := u32_as_i32 tile_pos.y }

/-- A 2D vector, `bevy::math::Vec2` with `f32` fields embedded as exact
rationals. -/
structure Vec2 where
  x : ℚ
  y : ℚ
deriving DecidableEq

/-- A 2x2 matrix stored by columns, `bevy::math::Mat2` via `from_cols`. -/
structure Mat2 where
  x_axis : Vec2
  y_axis : Vec2
deriving DecidableEq

/-- Matrix-vector product, `Mat2 * Vec2`: `x_axis * v.x + y_axis * v.y`. -/
def Mat2.mulVec (m : Mat2) (v : Vec2) : Vec2 :=
  { x := m.x_axis.x * v.x + m.y_axis.x * v.y
    y := m.x_axis.y * v.x + m.y_axis.y * v.y }

/-- Modelled from the spec: the constant `HALF_SQRT_3` lives in the missing
`consts.rs`; it is the `f32` nearest to `√3 / 2`, here that `f32` value as
an exact rational (`14529495 / 2^24`).  Every claim settled below is
independent of the exact value of this constant. -/
def HALF_SQRT_3 : ℚ := 14529495 / 16777216

/-- The constant `ROW_BASIS`, `axial.rs` line 160:
`Mat2::from_cols(Vec2::new(1.0, 0.0), Vec2::new(0.5, HALF_SQRT_3))`. -/
def ROW_BASIS : Mat2 :=
  { x_axis := { x := 1, y := 0 }, y_axis := { x := 1 / 2, y := HALF_SQRT_3 } }

/-- Modelled from the spec: `TilemapGridSize` (the grid-size configuration,
cell width/height in world units) is not under `src/`; a pair of `f32`
fields, embedded as rationals. -/
structure TilemapGridSize where
  x : ℚ
  y : ℚ
deriving DecidableEq

/-- The method `AxialPos::center_in_world_row`, `axial.rs` lines 205-211:
`unscaled = ROW_BASIS * (q, r)`, result
`(grid_size.x * unscaled.x, ROW_BASIS.y_axis.y * grid_size.y * unscaled.y)`. -/
def AxialPos.center_in_world_row (a : AxialPos) (grid_size : TilemapGridSize) : Vec2 :=
  let unscaled_pos := ROW_BASIS.mulVec { x := (a.q : ℚ), y := (a.r : ℚ) }
  { x := grid_size.x * unscaled_pos.x
    y := ROW_BASIS.y_axis.y * grid_size.y * unscaled_pos.y }

/-- Comparison of two `i32` values as Rust's `Ord::cmp` on integers. -/
def cmpI32 (a b : Int) : Ordering :=
  if a < b then .lt else if b < a then .gt else .eq

/-- Rust's derived `Ord` on a two-field struct compares the fields in
declaration order: first `q`, and only on equality `r`. -/
def pairCmp (q r qq rr : Int) : Ordering :=
  match cmpI32 q qq with
  | .eq => cmpI32 r rr
  | o => o

/-- The derived `Ord` of `AxialPos` (`axial.rs` line 26). -/
def AxialPos.cmp (a b : AxialPos) : Ordering := pairCmp a.q a.r b.q b.r

/-- The derived `Ord` of `RowOddPos` (`offset.rs` line 6). -/
def RowOddPos.cmp (a b : RowOddPos) : Ordering := pairCmp a.q a.r b.q b.r

/-- The derived `Ord` of `RowEvenPos` (`offset.rs` line 43). -/
def RowEvenPos.cmp (a b : RowEvenPos) : Ordering := pairCmp a.q a.r b.q b.r

/-- The derived `Ord` of `ColOddPos` (`offset.rs` line 80). -/
def ColOddPos.cmp (a b : ColOddPos) : Ordering := pairCmp a.q a.r b.q b.r

/-- The derived `Ord` of `ColEvenPos` (`offset.rs` line 117). -/
def ColEvenPos.cmp (a b : ColEvenPos) : Ordering := pairCmp a.q a.r b.q b.r

/-- Rust's derived `Hash` feeds the fields to the hasher in declaration
order; the hash of a value is therefore a function of this field list, so
equal field lists give equal hashes under any hasher. -/
def AxialPos.hashFields (a : AxialPos) : List Int := [a.q, a.r]

/-- Field list fed to the hasher by the derived `Hash` of `RowOddPos`. -/
def RowOddPos.hashFields (a : RowOddPos) : List Int := [a.q, a.r]

/-- Field list fed to the hasher by the derived `Hash` of `RowEvenPos`. -/
def RowEvenPos.hashFields (a : RowEvenPos) : List Int := [a.q, a.r]

/-- Field list fed to the hasher by the derived `Hash` of `ColOddPos`. -/
def ColOddPos.hashFields (a : ColOddPos) : List Int := [a.q, a.r]

/-- Field list fed to the hasher by the derived `Hash` of `ColEvenPos`. -/
def ColEvenPos.hashFields (a : ColEvenPos) : List Int := [a.q, a.r]

theorem i32Div_two_eq_truncHalf (x : Int) : i32Div x 2 = truncHalf x := by
  unfold i32Div truncHalf
  by_cases h : 0 ≤ x
  · rw [if_pos h, Int.tdiv_eq_ediv h (by norm_num)]
  · rw [if_neg h]
    have hrw : Int.tdiv x 2 = -(Int.tdiv (-x) 2) := by
      rw [← Int.neg_tdiv, neg_neg]
    rw [hrw, Int.tdiv_eq_ediv (by omega) (by norm_num)]

theorem ceiled_division_by_2_eq (x : Int) :
    ceiled_division_by_2 x = if 0 ≤ x then ceilHalf x else floorHalf x := by
  unfold ceiled_division_by_2 ceilHalf floorHalf
  by_cases h : x < 0
  · rw [if_pos h, if_neg (by omega)]
    rw [show x - 1 = -(1 - x) by ring, i32Div, Int.neg_tdiv,
      Int.tdiv_eq_ediv (by omega) (by norm_num)]
    omega
  · rw [if_neg h, if_pos (by omega)]
    rw [i32Div, Int.tdiv_eq_ediv (by omega) (by norm_num)]
    omega

theorem pairCmp_lt_iff (q r qq rr : Int) :
    pairCmp q r qq rr = Ordering.lt ↔ q < qq ∨ (q = qq ∧ r < rr) := by
  unfold pairCmp cmpI32
  rcases lt_trichotomy q qq with h | h | h
  · simp [h]
  · simp only [h, lt_irrefl, if_false]
    split_ifs <;> simp_all <;> omega
  · simp [h, not_lt.mpr (le_of_lt h), lt_asymm h]
    omega

theorem pairCmp_eq_iff (q r qq rr : Int) :
    pairCmp q r qq rr = Ordering.eq ↔ q = qq ∧ r = rr := by
  unfold pairCmp cmpI32
  rcases lt_trichotomy q qq with h | h | h
  · simp [h]
    omega
  · simp only [h, lt_irrefl, if_false]
    split_ifs <;> simp_all <;> omega
  · simp [h, not_lt.mpr (le_of_lt h), lt_asymm h]
    omega

theorem pairCmp_gt_iff (q r qq rr : Int) :
    pairCmp q r qq rr = Ordering.gt ↔ pairCmp qq rr q r = Ordering.lt := by
  rw [pairCmp_lt_iff]
  unfold pairCmp cmpI32
  rcases lt_trichotomy q qq with h | h | h
  · simp [h]
    omega
  · simp only [h, lt_irrefl, if_false]
    split_ifs <;> simp_all <;> omega
  · simp [h, not_lt.mpr (le_of_lt h), lt_asymm h]

theorem pairCmp_lt_trans (q r qq rr q3 r3 : Int) :
    pairCmp q r qq rr = Ordering.lt → pairCmp qq rr q3 r3 = Ordering.lt →
    pairCmp q r q3 r3 = Ordering.lt := by
  rw [pairCmp_lt_iff, pairCmp_lt_iff, pairCmp_lt_iff]
  omega

/-- C1: for each of the four Offset variants (RowOdd, RowEven, ColOdd,
ColEven) the conversion pair with AxialPos round-trips in both directions on
every integer pair `(q, r)`. -/
theorem offset_axial_roundtrip (q r : Int) :
    (AxialPos.fromRowOdd (RowOddPos.fromAxial { q := q, r := r }) = { q := q, r := r }
      ∧ RowOddPos.fromAxial (AxialPos.fromRowOdd { q := q, r := r }) = { q := q, r := r })
    ∧ (AxialPos.fromRowEven (RowEvenPos.fromAxial { q := q, r := r }) = { q := q, r := r }
      ∧ RowEvenPos.fromAxial (AxialPos.fromRowEven { q := q, r := r }) = { q := q, r := r })
    ∧ (AxialPos.fromColOdd (ColOddPos.fromAxial { q := q, r := r }) = { q := q, r := r }
      ∧ ColOddPos.fromAxial (AxialPos.fromColOdd { q := q, r := r }) = { q := q, r := r })
    ∧ (AxialPos.fromColEven (ColEvenPos.fromAxial { q := q, r := r }) = { q := q, r := r }
      ∧ ColEvenPos.fromAxial (AxialPos.fromColEven { q := q, r := r }) = { q := q, r := r }) := by
  refine ⟨⟨?_, ?_⟩, ⟨?_, ?_⟩, ⟨?_, ?_⟩, ⟨?_, ?_⟩⟩ <;>
    simp [RowOddPos.fromAxial, AxialPos.fromRowOdd, RowEvenPos.fromAxial,
      AxialPos.fromRowEven, ColOddPos.fromAxial, AxialPos.fromColOdd,
      ColEvenPos.fromAxial, AxialPos.fromColEven]

/-- C2 counterexample: at `AxialPos {q := 0, r := -3}` the RowOdd forward
conversion does NOT yield `q + ⌊r / 2⌋ = -2`: the source divides with Rust's
truncating `/`, giving `-1`. -/
theorem rowOdd_forward_not_floor :
    ¬ (RowOddPos.fromAxial { q := 0, r := -3 }).q = 0 + floorHalf (-3) := by
  decide

/-- C2 (amended): the Odd-variant forward conversions use Rust's `/`, which
truncates toward zero: `⌊r / 2⌋` for non-negative `r` and `-⌊-r / 2⌋` for
negative `r` (`truncHalf`).  RowOdd yields `offset.q = q + truncHalf r`,
ColOdd yields `offset.r = r + truncHalf q`; an operand of `-3` divided by 2
yields `-1`, not `-2`. -/
theorem odd_forward_truncating (q r : Int) :
    (RowOddPos.fromAxial { q := q, r := r }).q = q + truncHalf r
    ∧ (ColOddPos.fromAxial { q := q, r := r }).r = r + truncHalf q
    ∧ (RowOddPos.fromAxial { q := 0, r := -3 }).q = -1 := by
  refine ⟨?_, ?_, by decide⟩ <;>
    simp [RowOddPos.fromAxial, ColOddPos.fromAxial, i32Div_two_eq_truncHalf]

/-- C3 counterexample: at `AxialPos {q := 0, r := -1}` the RowEven forward
conversion does NOT yield `q + ⌈r / 2⌉ = 0`: the source's
`ceiled_division_by_2` computes `(-1 - 1) / 2 = -1`, not `⌈-1/2⌉ = 0`. -/
theorem rowEven_forward_not_ceil :
    ¬ (RowEvenPos.fromAxial { q := 0, r := -1 }).q = 0 + ceilHalf (-1) := by
  decide

/-- C3 (amended): the Even-variant forward conversions shear by the source's
`ceiled_division_by_2`, which equals `⌈x / 2⌉` for non-negative `x` but
`⌊x / 2⌋` for negative `x` (the two differ at negative odd operands).
RowEven yields `offset.q = q + ⌈r / 2⌉` only for `r ≥ 0`, and
`q + ⌊r / 2⌋` for `r < 0`; ColEven analogously on `q`. -/
theorem even_forward_ceil_nonneg_floor_neg (q r : Int) :
    (RowEvenPos.fromAxial { q := q, r := r }).q
        = q + (if 0 ≤ r then ceilHalf r else floorHalf r)
    ∧ (ColEvenPos.fromAxial { q := q, r := r }).r
        = r + (if 0 ≤ q then ceilHalf q else floorHalf q) := by
  constructor <;>
    simp [RowEvenPos.fromAxial, ColEvenPos.fromAxial, ceiled_division_by_2_eq]

theorem from_i32_pair_isSome_iff (q r : Int) (m : TilemapSize) :
    (TilePos.from_i32_pair q r m).isSome = true ↔
      0 ≤ q ∧ 0 ≤ r ∧ q < (m.x : Int) ∧ r < (m.y : Int) := by
  unfold TilePos.from_i32_pair
  split <;> simp_all

/-- C5: converting a coordinate to a bounded storage index (`as_tile_pos`)
returns a present value iff both components are non-negative and strictly
within the bounds width/height (absent otherwise, no error); in particular
`Axial {q := -1, r := 0}` yields absent for every bounds. -/
theorem as_tile_pos_some_iff_in_bounds (a : AxialPos) (p : RowOddPos) (m : TilemapSize) :
    ((a.as_tile_pos m).isSome = true ↔
      0 ≤ a.q ∧ 0 ≤ a.r ∧ a.q < (m.x : Int) ∧ a.r < (m.y : Int))
    ∧ ((p.as_tile_pos m).isSome = true ↔
      0 ≤ p.q ∧ 0 ≤ p.r ∧ p.q < (m.x : Int) ∧ p.r < (m.y : Int))
    ∧ AxialPos.as_tile_pos { q := -1, r := 0 } m = none := by
  refine ⟨from_i32_pair_isSome_iff _ _ _, from_i32_pair_isSome_iff _ _ _, ?_⟩
  unfold AxialPos.as_tile_pos TilePos.from_i32_pair
  norm_num

/-- Witness for C5 at a concrete position and bounds. -/
theorem as_tile_pos_some_iff_in_bounds_witness :
    AxialPos.as_tile_pos { q := -1, r := 0 } { x := 7, y := 7 } = none :=
  (as_tile_pos_some_iff_in_bounds { q := -1, r := 0 } { q := 0, r := 0 }
    { x := 7, y := 7 }).2.2

/-- C6 counterexample: in row orientation the world-space center of
`AxialPos {q := 1, r := 0}` with grid size `{x := 2, y := 2}` is NOT
`(2, 1)`: its `y` component is `HALF_SQRT_3 * 2 * (HALF_SQRT_3 * 0) = 0`. -/
theorem center_in_world_row_one_zero_ne :
    AxialPos.center_in_world_row { q := 1, r := 0 } { x := 2, y := 2 }
      ≠ { x := 2, y := 1 } := by
  simp [AxialPos.center_in_world_row, Mat2.mulVec, ROW_BASIS, HALF_SQRT_3]

/-- C6 (amended): in row orientation, the world-space center of
`AxialPos {q := 1, r := 0}` with grid size `{x := 2, y := 2}` is the point
`(2.0, 0.0)`. -/
theorem center_in_world_row_one_zero :
    AxialPos.center_in_world_row { q := 1, r := 0 } { x := 2, y := 2 }
      = { x := 2, y := 0 } := by
  simp [AxialPos.center_in_world_row, Mat2.mulVec, ROW_BASIS, HALF_SQRT_3]

/-- C7: hex-grid distance between axial coordinates is symmetric:
`a.distance_from b = b.distance_from a` for all `a`, `b`, where
`distance_from` is the magnitude of the elementwise difference. -/
theorem distance_from_symm (a b : AxialPos) :
    a.distance_from b = b.distance_from a := by
  show i32Div (|a.q - b.q| + |a.r - b.r| + |-(a.q - b.q) - (a.r - b.r)|) 2
      = i32Div (|b.q - a.q| + |b.r - a.r| + |-(b.q - a.q) - (b.r - a.r)|) 2
  congr 1
  rw [abs_sub_comm a.q b.q, abs_sub_comm a.r b.r,
    show -(a.q - b.q) - (a.r - b.r) = -(-(b.q - a.q) - (b.r - a.r)) by ring, abs_neg]

/-- C9: every Axial-to-Offset conversion (and its inverse) changes only the
sheared axis: the Row variants leave `r` unchanged and the Col variants
leave `q` unchanged, for every integer input. -/
theorem conversions_preserve_other_axis (q r : Int) :
    (RowOddPos.fromAxial { q := q, r := r }).r = r
    ∧ (RowEvenPos.fromAxial { q := q, r := r }).r = r
    ∧ (AxialPos.fromRowOdd { q := q, r := r }).r = r
    ∧ (AxialPos.fromRowEven { q := q, r := r }).r = r
    ∧ (ColOddPos.fromAxial { q := q, r := r }).q = q
    ∧ (ColEvenPos.fromAxial { q := q, r := r }).q = q
    ∧ (AxialPos.fromColOdd { q := q, r := r }).q = q
    ∧ (AxialPos.fromColEven { q := q, r := r }).q = q :=
  ⟨rfl, rfl, rfl, rfl, rfl, rfl, rfl, rfl⟩

/-- C10: constructing an `AxialPos` (or any Offset position) from a
`TilePos` reinterprets each unsigned 32-bit field as a signed 32-bit
integer: fields below `2^31` carry over unchanged, fields of `2^31` or more
produce a negative component; in all cases the component is congruent to
the field modulo `2^32` and lies in the signed 32-bit range, and the four
Offset constructions produce the same components as the Axial one. -/
theorem from_tile_pos_reinterprets (t : TilePos)
    (hx : t.x < 2 ^ 32) (hy : t.y < 2 ^ 32) :
    ((t.x < 2 ^ 31 → (AxialPos.fromTilePos t).q = (t.x : Int))
      ∧ (2 ^ 31 ≤ t.x → (AxialPos.fromTilePos t).q < 0)
      ∧ (t.y < 2 ^ 31 → (AxialPos.fromTilePos t).r = (t.y : Int))
      ∧ (2 ^ 31 ≤ t.y → (AxialPos.fromTilePos t).r < 0))
    ∧ ((AxialPos.fromTilePos t).q % 2 ^ 32 = (t.x : Int) % 2 ^ 32
      ∧ -(2 ^ 31) ≤ (AxialPos.fromTilePos t).q
      ∧ (AxialPos.fromTilePos t).q < 2 ^ 31)
    ∧ (RowOddPos.fromTilePos t
        = { q := (AxialPos.fromTilePos t).q, r := (AxialPos.fromTilePos t).r }
      ∧ RowEvenPos.fromTilePos t
        = { q := (AxialPos.fromTilePos t).q, r := (AxialPos.fromTilePos t).r }
      ∧ ColOddPos.fromTilePos t
        = { q := (AxialPos.fromTilePos t).q, r := (AxialPos.fromTilePos t).r }
      ∧ ColEvenPos.fromTilePos t
        = { q := (AxialPos.fromTilePos t).q, r := (AxialPos.fromTilePos t).r }) := by
  refine ⟨⟨?_, ?_, ?_, ?_⟩, ⟨?_, ?_, ?_⟩, rfl, rfl, rfl, rfl⟩ <;>
    simp only [AxialPos.fromTilePos, u32_as_i32] <;> split_ifs <;> omega

/-- Witness for C10 at the concrete tile position `(5, 2^31)`. -/
theorem from_tile_pos_reinterprets_witness :
    (AxialPos.fromTilePos { x := 5, y := 2 ^ 31 }).q = 5
    ∧ (AxialPos.fromTilePos { x := 5, y := 2 ^ 31 }).r < 0 :=
  ⟨(from_tile_pos_reinterprets { x := 5, y := 2 ^ 31 }
      (by norm_num) (by norm_num)).1.1 (by norm_num),
   (from_tile_pos_reinterprets { x := 5, y := 2 ^ 31 }
      (by norm_num) (by norm_num)).1.2.2.2 (by norm_num)⟩

/-- C8: every integer coordinate type (`AxialPos` and the four Offset
variants) carries a total order that is lexicographic on `(q, r)` — the
derived comparison returns `lt` iff `a.q < b.q`, or `a.q = b.q` and
`a.r < b.r`; it returns `eq` exactly on equal values, is asymmetric and
transitive — and equal values have equal hash input, so the types serve as
mapping keys. -/
theorem coord_order_lex_and_hash :
    ((∀ a b : AxialPos,
        (AxialPos.cmp a b = Ordering.lt ↔ a.q < b.q ∨ (a.q = b.q ∧ a.r < b.r))
        ∧ (AxialPos.cmp a b = Ordering.eq ↔ a = b)
        ∧ (AxialPos.cmp a b = Ordering.gt ↔ AxialPos.cmp b a = Ordering.lt)
        ∧ (a = b → a.hashFields = b.hashFields))
      ∧ (∀ a b c : AxialPos, AxialPos.cmp a b = Ordering.lt →
          AxialPos.cmp b c = Ordering.lt → AxialPos.cmp a c = Ordering.lt))
    ∧ ((∀ a b : RowOddPos,
        (RowOddPos.cmp a b = Ordering.lt ↔ a.q < b.q ∨ (a.q = b.q ∧ a.r < b.r))
        ∧ (RowOddPos.cmp a b = Ordering.eq ↔ a = b)
        ∧ (RowOddPos.cmp a b = Ordering.gt ↔ RowOddPos.cmp b a = Ordering.lt)
        ∧ (a = b → a.hashFields = b.hashFields))
      ∧ (∀ a b c : RowOddPos, RowOddPos.cmp a b = Ordering.lt →
          RowOddPos.cmp b c = Ordering.lt → RowOddPos.cmp a c = Ordering.lt))
    ∧ ((∀ a b : RowEvenPos,
        (RowEvenPos.cmp a b = Ordering.lt ↔ a.q < b.q ∨ (a.q = b.q ∧ a.r < b.r))
        ∧ (RowEvenPos.cmp a b = Ordering.eq ↔ a = b)
        ∧ (RowEvenPos.cmp a b = Ordering.gt ↔ RowEvenPos.cmp b a = Ordering.lt)
        ∧ (a = b → a.hashFields = b.hashFields))
      ∧ (∀ a b c : RowEvenPos, RowEvenPos.cmp a b = Ordering.lt →
          RowEvenPos.cmp b c = Ordering.lt → RowEvenPos.cmp a c = Ordering.lt))
    ∧ ((∀ a b : ColOddPos,
        (ColOddPos.cmp a b = Ordering.lt ↔ a.q < b.q ∨ (a.q = b.q ∧ a.r < b.r))
        ∧ (ColOddPos.cmp a b = Ordering.eq ↔ a = b)
        ∧ (ColOddPos.cmp a b = Ordering.gt ↔ ColOddPos.cmp b a = Ordering.lt)
        ∧ (a = b → a.hashFields = b.hashFields))
      ∧ (∀ a b c : ColOddPos, ColOddPos.cmp a b = Ordering.lt →
          ColOddPos.cmp b c = Ordering.lt → ColOddPos.cmp a c = Ordering.lt))
    ∧ ((∀ a b : ColEvenPos,
        (ColEvenPos.cmp a b = Ordering.lt ↔ a.q < b.q ∨ (a.q = b.q ∧ a.r < b.r))
        ∧ (ColEvenPos.cmp a b = Ordering.eq ↔ a = b)
        ∧ (ColEvenPos.cmp a b = Ordering.gt ↔ ColEvenPos.cmp b a = Ordering.lt)
        ∧ (a = b → a.hashFields = b.hashFields))
      ∧ (∀ a b c : ColEvenPos, ColEvenPos.cmp a b = Ordering.lt →
          ColEvenPos.cmp b c = Ordering.lt → ColEvenPos.cmp a c = Ordering.lt)) := by
  refine ⟨⟨?_, ?_⟩, ⟨?_, ?_⟩, ⟨?_, ?_⟩, ⟨?_, ?_⟩, ⟨?_, ?_⟩⟩
  case _ => intro a b; obtain ⟨aq, ar⟩ := a; obtain ⟨bq, br⟩ := b
            exact ⟨pairCmp_lt_iff aq ar bq br,
              (pairCmp_eq_iff aq ar bq br).trans (by simp),
              pairCmp_gt_iff aq ar bq br, fun h => by rw [h]⟩
  case _ => exact fun a b c h1 h2 => pairCmp_lt_trans a.q a.r b.q b.r c.q c.r h1 h2
  case _ => intro a b; obtain ⟨aq, ar⟩ := a; obtain ⟨bq, br⟩ := b
            exact ⟨pairCmp_lt_iff aq ar bq br,
              (pairCmp_eq_iff aq ar bq br).trans (by simp),
              pairCmp_gt_iff aq ar bq br, fun h => by rw [h]⟩
  case _ => exact fun a b c h1 h2 => pairCmp_lt_trans a.q a.r b.q b.r c.q c.r h1 h2
  case _ => intro a b; obtain ⟨aq, ar⟩ := a; obtain ⟨bq, br⟩ := b
            exact ⟨pairCmp_lt_iff aq ar bq br,
              (pairCmp_eq_iff aq ar bq br).trans (by simp),
              pairCmp_gt_iff aq ar bq br, fun h => by rw [h]⟩
  case _ => exact fun a b c h1 h2 => pairCmp_lt_trans a.q a.r b.q b.r c.q c.r h1 h2
  case _ => intro a b; obtain ⟨aq, ar⟩ := a; obtain ⟨bq, br⟩ := b
            exact ⟨pairCmp_lt_iff aq ar bq br,
              (pairCmp_eq_iff aq ar bq br).trans (by simp),
              pairCmp_gt_iff aq ar bq br, fun h => by rw [h]⟩
  case _ => exact fun a b c h1 h2 => pairCmp_lt_trans a.q a.r b.q b.r c.q c.r h1 h2
  case _ => intro a b; obtain ⟨aq, ar⟩ := a; obtain ⟨bq, br⟩ := b
            exact ⟨pairCmp_lt_iff aq ar bq br,
              (pairCmp_eq_iff aq ar bq br).trans (by simp),
              pairCmp_gt_iff aq ar bq br, fun h => by rw [h]⟩
  case _ => exact fun a b c h1 h2 => pairCmp_lt_trans a.q a.r b.q b.r c.q c.r h1 h2

/-- Witness for C8 at concrete coordinates. -/
theorem coord_order_lex_and_hash_witness :
    AxialPos.cmp { q := 0, r := 0 } { q := 0, r := 1 } = Ordering.lt
    ∧ RowOddPos.hashFields { q := 3, r := 4 }
        = RowOddPos.hashFields { q := 3, r := 4 } :=
  ⟨(coord_order_lex_and_hash.1.1 { q := 0, r := 0 } { q := 0, r := 1 }).1.mpr
      (Or.inr ⟨rfl, by norm_num⟩),
   (coord_order_lex_and_hash.2.1.1 { q := 3, r := 4 } { q := 3, r := 4 }).2.2.2 rfl⟩
